import Mathlib

/-!
Verification of the rano compiler front end (libranoc): a shallow embedding of
the lexical scanner (`syntax/tokenize.rs`), the parser entry points
(`syntax/parse`) and the codegen walker (`codegen/walker`), with theorems about
span joining, tokenization, name parsing and module walking.

Machine integers (`usize`) are modelled as `Nat`; the one subtraction the
source performs unchecked (`range.end - range.start` in `Span::joined`) is
modelled by truncated `Nat` subtraction, and the condition under which the
Rust subtraction would underflow is captured separately by
`Span.joinedUnderflows`.
-/

namespace Rano

/-! ## Spans (`syntax/tokenize.rs`, `Span` / `Span::EMPTY` / `Span::joined`) -/

/-- `usize::MAX` on a 64-bit target. -/
def usizeMax : Nat := 2 ^ 64 - 1

/-- A byte-offset range `start..end` (`end` is a Lean keyword, so the field is
called `stop`). -/
structure ByteRange where
  start : Nat
  stop : Nat
  deriving Repr, DecidableEq

/-- `Span { range, line, column, len }` from `syntax/tokenize.rs`. -/
structure Span where
  range : ByteRange
  line : Nat
  column : Nat
  len : Nat
  deriving Repr, DecidableEq

/-- `Span::EMPTY`: the sentinel span `usize::MAX..usize::MIN` with line,
column and len all `0`. -/
def Span.EMPTY : Span :=
  { range := ⟨usizeMax, 0⟩, line := 0, column := 0, len := 0 }

/-- `Span::joined`: range is `min start .. max end`, line and column are the
minima, and `len` is the unchecked usize subtraction `range.end - range.start`
(truncated subtraction here; `Span.joinedUnderflows` states when the source's
subtraction would underflow). -/
def Span.joined (self other : Span) : Span :=
  let range : ByteRange :=
    ⟨min self.range.start other.range.start, max self.range.stop other.range.stop⟩
  { range := range
    line := min self.line other.line
    column := min self.column other.column
    len := range.stop - range.start }

/-- The condition under which the subtraction `range.end - range.start` inside
`Span::joined` underflows in the source: the joined range is inverted. -/
def Span.joinedUnderflows (self other : Span) : Prop :=
  max self.range.stop other.range.stop < min self.range.start other.range.start

/-- The span `⟨5..10, line 3, column 7, len 5⟩` used to exhibit that
`Span::EMPTY` is not a full identity for `Span::joined`. -/
def spanLine3 : Span := { range := ⟨5, 10⟩, line := 3, column := 7, len := 5 }

/-- C1 (counterexample): joining `Span::EMPTY` with the span
`⟨5..10, line 3, column 7, len 5⟩` does not return it unchanged in either
argument order: the joined line and column are `min` with `0`, hence `0`. -/
theorem span_EMPTY_not_identity :
    Span.EMPTY.joined spanLine3 ≠ spanLine3 ∧
    spanLine3.joined Span.EMPTY ≠ spanLine3 := by
  constructor <;> simp [Span.joined, Span.EMPTY, spanLine3, usizeMax]

/-- C1 (amended): for a span `s` whose offsets fit in usize and whose `len`
field is consistent (`len = end − start`), joining `Span::EMPTY` with `s` in
either argument order preserves the range and the len, but zeroes line and
column (they become `min` with `0`); so `Span::EMPTY` is an identity for
`Span::joined` exactly on the range and len fields, and a full identity only
for spans with line and column `0`. -/
theorem span_EMPTY_joined_fields (s : Span)
    (hfit : s.range.start ≤ usizeMax)
    (hlen : s.len = s.range.stop - s.range.start) :
    Span.EMPTY.joined s = { s with line := 0, column := 0 } ∧
    s.joined Span.EMPTY = { s with line := 0, column := 0 } := by
  obtain ⟨⟨a, b⟩, ln, col, l⟩ := s
  simp only [Span.joined, Span.EMPTY, Span.mk.injEq, ByteRange.mk.injEq] at *
  subst hlen
  refine ⟨⟨⟨?_, ?_⟩, ?_, ?_, ?_⟩, ⟨?_, ?_⟩, ?_, ?_, ?_⟩ <;> omega

/-- C1 (witness for the amended theorem). -/
theorem span_EMPTY_joined_fields_witness :
    Span.EMPTY.joined ⟨⟨2, 6⟩, 1, 4, 4⟩ = ⟨⟨2, 6⟩, 0, 0, 4⟩ ∧
    (⟨⟨2, 6⟩, 1, 4, 4⟩ : Span).joined Span.EMPTY = ⟨⟨2, 6⟩, 0, 0, 4⟩ :=
  span_EMPTY_joined_fields ⟨⟨2, 6⟩, 1, 4, 4⟩ (by decide) (by decide)

/-- C4: `Span::joined` is associative, and the joined range is the union
extent of the operands — its start is the minimum of the starts, its end the
maximum of the ends — independent of operand order. -/
theorem span_joined_assoc_union (a b c : Span) :
    (a.joined b).joined c = a.joined (b.joined c) ∧
    (a.joined b).range.start = min a.range.start b.range.start ∧
    (a.joined b).range.stop = max a.range.stop b.range.stop ∧
    (a.joined b).range = (b.joined a).range := by
  refine ⟨?_, rfl, rfl, ?_⟩
  · simp only [Span.joined, Span.mk.injEq, ByteRange.mk.injEq]
    omega
  · simp only [Span.joined, ByteRange.mk.injEq]
    omega

/-- C10: whenever at least one operand's range is not inverted
(`start ≤ end`), the usize subtraction `range.end - range.start` inside
`Span::joined` cannot underflow (the joined start is ≤ the joined end), and
`len` is the exact difference of the joined extent. -/
theorem joined_no_underflow (a b : Span)
    (h : a.range.start ≤ a.range.stop ∨ b.range.start ≤ b.range.stop) :
    ¬ Span.joinedUnderflows a b ∧
    (a.joined b).len + min a.range.start b.range.start =
      max a.range.stop b.range.stop := by
  unfold Span.joinedUnderflows Span.joined
  simp only
  omega

/-- C10 (witness): joining the empty sentinel with an ordinary span satisfies
the precondition and does not underflow. -/
theorem joined_no_underflow_witness :
    ¬ Span.joinedUnderflows Span.EMPTY spanLine3 ∧
    (Span.EMPTY.joined spanLine3).len +
      min Span.EMPTY.range.start spanLine3.range.start =
        max Span.EMPTY.range.stop spanLine3.range.stop :=
  joined_no_underflow Span.EMPTY spanLine3 (Or.inr (by decide))

/-! ## Token kinds (`syntax/tokenize.rs`, `enum TokenKind`) -/

/-- The closed lexical categories of `TokenKind`, with the token text carried
by the payload-bearing variants exactly as in the source. `VerticalSpace` and
`HorizontalSpaces` are the two skipped (never emitted) categories; `Error` is
the sentinel "unrecognized" kind (`#[error]`). -/
inductive TokenKind where
  | PunctuationExclamationMark
  | PunctuationNumberSign
  | PunctuationDollarSign
  | PunctuationPercentSign
  | PunctuationAmpersand
  | PunctuationAsterisk
  | PunctuationPlusSign
  | PunctuationComma
  | PunctuationHyphenMinus
  | PunctuationFullStop
  | PunctuationSolidus
  | PunctuationColon
  | PunctuationSemicolon
  | PunctuationLessThanSign
  | PunctuationEqualsSign
  | PunctuationGreaterThanSign
  | PunctuationQuestionMark
  | PunctuationCommercialAt
  | PunctuationReverseSolidus
  | PunctuationCircumflexAccent
  | PunctuationVerticalLine
  | PunctuationTilde
  | PunctuationLeftParenthesis
  | PunctuationLeftSquareBracket
  | PunctuationLeftCurlyBracket
  | PunctuationRightParenthesis
  | PunctuationRightSquareBracket
  | PunctuationRightCurlyBracket
  | PunctuationsLogicalAnd
  | PunctuationsLogicalOr
  | PunctuationsEqualTo
  | PunctuationsNotEqualTo
  | PunctuationsLessThanOrEqualTo
  | PunctuationsGreaterThanOrEqualTo
  | PunctuationsSingleRightArrow
  | PunctuationsRangeRightExclusive
  | PunctuationsRangeRightInclusive
  | PunctuationsGetFieldNullable
  | KeywordAs
  | KeywordBreak
  | KeywordContinue
  | KeywordElse
  | KeywordExtern
  | KeywordFn
  | KeywordFor
  | KeywordIf
  | KeywordImpl
  | KeywordIn
  | KeywordLet
  | KeywordMatch
  | KeywordPub
  | KeywordReturn
  | KeywordSelf
  | KeywordSelfType
  | KeywordStruct
  | KeywordTrait
  | KeywordType
  | KeywordUnion
  | KeywordUse
  | KeywordWhere
  | KeywordWhile
  | IdentifierIdentifier (text : String)
  | KeywordPlaceholderName
  | LiteralCharacter (text : String)
  | LiteralString (text : String)
  | LiteralNumberIntegral (text : String)
  | LiteralNumberDecimal (text : String)
  | LiteralNumberExponent (text : String)
  | LiteralBoolean (text : String)
  | VerticalSpace
  | HorizontalSpaces
  | Error
  deriving Repr, BEq

/-- `Token { kind, span, content }`. -/
structure Token where
  kind : TokenKind
  span : Span
  content : String
  deriving Repr, BEq

/-! ## Character classes of the scanner's regexes -/

/-- The line-break characters of the `VerticalSpace` class: LF, LINE
TABULATION, FORM FEED, CR, NEXT LINE, LINE SEPARATOR, PARAGRAPH SEPARATOR. -/
def verticalSpaceChars : List Char :=
  ['\u000A', '\u000B', '\u000C', '\u000D', '\u0085', '\u2028', '\u2029']

/-- The whitespace characters of the `HorizontalSpaces` class: TAB, SPACE,
SOFT HYPHEN, NO-BREAK SPACE, OGHAM SPACE MARK, EN QUAD through HAIR SPACE,
ZERO WIDTH SPACE, LRM, RLM, NARROW NO-BREAK SPACE, MEDIUM MATHEMATICAL
SPACE, IDEOGRAPHIC SPACE and ZERO WIDTH NO-BREAK SPACE. -/
def horizontalSpaceChars : List Char :=
  ['\u0009', '\u0020', '\u00AD', '\u00A0', '\u1680', '\u2000', '\u2001',
   '\u2002', '\u2003', '\u2004', '\u2005', '\u2006', '\u2007', '\u2008',
   '\u2009', '\u200A', '\u200B', '\u200E', '\u200F', '\u202F', '\u205F',
   '\u3000', '\uFEFF']

/-- The punctuation symbols excluded from identifier characters (both the
first-character class and the continuation class of the identifier regex list
exactly these). -/
def identExcludedSymbols : List Char :=
  ['!', '#', '$', '%', '&', '*', '+', ',', '-', '.', '/', ':', ';', '<',
   '=', '>', '?', '@', '\\', '^', '|', '~', '(', '[', '{', ')', ']', '}']

def isVerticalSpace (c : Char) : Bool := decide (c ∈ verticalSpaceChars)

def isHorizontalSpace (c : Char) : Bool := decide (c ∈ horizontalSpaceChars)

/-- A whitespace or line-break character (the union of the two skip classes). -/
def isWsChar (c : Char) : Bool := isVerticalSpace c || isHorizontalSpace c

/-- An ASCII decimal digit (`[0-9]` in the scanner's regexes). -/
def isDigit09 (c : Char) : Bool := decide ('0' ≤ c ∧ c ≤ '9')

/-- First character of an identifier: not a digit, not whitespace or a line
break, not one of the excluded punctuation symbols. -/
def identFirstOk (c : Char) : Bool :=
  !(isDigit09 c || isVerticalSpace c || isHorizontalSpace c ||
    decide (c ∈ identExcludedSymbols))

/-- Continuation character of an identifier: as `identFirstOk` but digits are
allowed (the source regex's intentional asymmetry). -/
def identContOk (c : Char) : Bool :=
  !(isVerticalSpace c || isHorizontalSpace c ||
    decide (c ∈ identExcludedSymbols))

/-! ## Per-pattern longest-match lengths

Each scanner pattern is modelled as a function from the remaining input to
the length (in characters) of its longest match there, `none` when it does
not match. -/

/-- Length of the longest prefix all of whose characters satisfy `p`. -/
def takeWhileCount (p : Char → Bool) : List Char → Nat
  | [] => 0
  | c :: cs => if p c then takeWhileCount p cs + 1 else 0

/-- Match of a fixed literal (a `#[token("...")]` pattern). -/
def litMatch (pat : List Char) (cs : List Char) : Option Nat :=
  if pat.isPrefixOf cs then some pat.length else none

/-- The identifier regex `[^0-9 WS P][^WS P]*`: a permitted first character
followed by the maximal run of permitted continuation characters. -/
def identMatch : List Char → Option Nat
  | [] => none
  | c :: cs =>
    if identFirstOk c then some (1 + takeWhileCount identContOk cs) else none

/-- The integral-literal regex `([0-9]+|0b[0-1]+|0o[0-7]+|0x[0-9a-fA-F]+)`:
the longest of the matching alternatives. -/
def integralMatch : List Char → Option Nat
  | [] => none
  | c :: cs =>
    if isDigit09 c then
      let dec := 1 + takeWhileCount isDigit09 cs
      let radix : Option Nat :=
        match c, cs with
        | '0', 'b' :: rest =>
          let k := takeWhileCount (fun d => d = '0' ∨ d = '1') rest
          if 0 < k then some (2 + k) else none
        | '0', 'o' :: rest =>
          let k := takeWhileCount (fun d => decide ('0' ≤ d ∧ d ≤ '7')) rest
          if 0 < k then some (2 + k) else none
        | '0', 'x' :: rest =>
          let k := takeWhileCount
            (fun d => isDigit09 d ∨ ('a' ≤ d ∧ d ≤ 'f') ∨ ('A' ≤ d ∧ d ≤ 'F'))
            rest
          if 0 < k then some (2 + k) else none
        | _, _ => none
      match radix with
      | some r => some (max dec r)
      | none => some dec
    else none

/-- The decimal-literal regex `[0-9]+\.[0-9]+`. -/
def decimalMatch : List Char → Option Nat
  | [] => none
  | c :: cs =>
    if isDigit09 c then
      let d := 1 + takeWhileCount isDigit09 cs
      match (c :: cs).drop d with
      | '.' :: rest =>
        let e := takeWhileCount isDigit09 rest
        if 0 < e then some (d + 1 + e) else none
      | _ => none
    else none

/-- The `[eE][+-][0-9]+` tail of the exponent regex. -/
def expTail : List Char → Option Nat
  | e :: s :: rest =>
    if (e = 'e' ∨ e = 'E') ∧ (s = '+' ∨ s = '-') then
      let k := takeWhileCount isDigit09 rest
      if 0 < k then some (2 + k) else none
    else none
  | _ => none

/-- The optional `\.[0-9]+` part of the exponent regex followed by its
mandatory `[eE][+-][0-9]+` tail: the match length after the integer part. -/
def exponentFrac : List Char → Option Nat
  | '.' :: rest =>
    let e := takeWhileCount isDigit09 rest
    if 0 < e then
      match expTail (rest.drop e) with
      | some t => some (1 + e + t)
      | none => none
    else none
  | _ => none

/-- The exponent-literal regex `[0-9]+(\.[0-9]+)?[eE][+-][0-9]+`: the greedy
integer part, then either a fractional part with the exponent tail, or the
exponent tail directly. -/
def exponentMatch : List Char → Option Nat
  | [] => none
  | c :: cs =>
    if isDigit09 c then
      let d := 1 + takeWhileCount isDigit09 cs
      match exponentFrac ((c :: cs).drop d) with
      | some f => some (d + f)
      | none =>
        match expTail ((c :: cs).drop d) with
        | some t => some (d + t)
        | none => none
    else none

/-- The boolean-literal regex `(true|false)`. -/
def booleanMatch (cs : List Char) : Option Nat :=
  match litMatch ['t', 'r', 'u', 'e'] cs with
  | some n => some n
  | none => litMatch ['f', 'a', 'l', 's', 'e'] cs

/-- Longest `n` with `accept (cs.take n) = true`, scanning all prefixes. -/
def bestAcceptLen (accept : List Char → Bool) (cs : List Char) : Option Nat :=
  (List.range (cs.length + 1)).foldl
    (fun acc n => if accept (cs.take n) then some n else acc) none

/-- The inner alternation `\\'|[^']*[^\\]` of the character-literal regex. -/
def charLitInner (u : List Char) : Bool :=
  (u = ['\\', '\'']) ||
  (match u.getLast? with
   | some lastc => lastc ≠ '\\' && u.dropLast.all (fun c => c ≠ '\'')
   | none => false)

/-- Whether `v` is a complete match of `'(\\'|[^']*[^\\])'`. -/
def charLitAccept (v : List Char) : Bool :=
  match v with
  | '\'' :: rest =>
    (match rest.getLast? with
     | some '\'' => decide (2 ≤ rest.length) && charLitInner rest.dropLast
     | _ => false)
  | _ => false

/-- The character-literal regex `'(\\'|[^']*[^\\])'` (longest match). -/
def charLitMatch : List Char → Option Nat
  | [] => none
  | c :: cs =>
    if c = '\'' then bestAcceptLen charLitAccept (c :: cs) else none

/-- Recognizer of `(\\"|[^"])*`: every `"` must arrive as part of an `\"`
pair (taking the pair greedily is complete, since a bare leading `"` can
never be consumed). -/
def strBodyStar : List Char → Bool
  | [] => true
  | '\\' :: '"' :: rest => strBodyStar rest
  | '"' :: _ => false
  | _ :: rest => strBodyStar rest

/-- The `(\\"|[^"])*[^\\]` part of the string-literal regex. -/
def strLitInner (u : List Char) : Bool :=
  match u.getLast? with
  | some lastc => lastc ≠ '\\' && strBodyStar u.dropLast
  | none => false

/-- Whether `v` is a complete match of `(""|"(\\"|[^"])*[^\\]")`. -/
def strLitAccept (v : List Char) : Bool :=
  match v with
  | '"' :: rest =>
    (rest = ['"']) ||
    (match rest.getLast? with
     | some '"' => decide (2 ≤ rest.length) && strLitInner rest.dropLast
     | _ => false)
  | _ => false

/-- The string-literal regex `(""|"(\\"|[^"])*[^\\]")` (longest match). -/
def strLitMatch : List Char → Option Nat
  | [] => none
  | c :: cs =>
    if c = '"' then bestAcceptLen strLitAccept (c :: cs) else none

/-- The `VerticalSpace` regex `(\r\n|[\n\v\f\r NEL LS PS])`: `\r\n` matches as
one two-character break, any other listed character as a one-character
break. -/
def verticalSpaceMatch : List Char → Option Nat
  | [] => none
  | c :: cs =>
    if c = '\r' then
      match cs with
      | '\n' :: _ => some 2
      | _ => some 1
    else if isVerticalSpace c then some 1 else none

/-- The `HorizontalSpaces` regex `[\t ...]+`: a maximal run of whitespace
characters. -/
def horizontalSpacesMatch : List Char → Option Nat
  | [] => none
  | c :: cs =>
    if isHorizontalSpace c then some (1 + takeWhileCount isHorizontalSpace cs)
    else none

/-! ## The scanner's pattern table and driver

The logos-generated lexer takes, at each position, the longest match over all
patterns, breaking equal-length ties by pattern priority (fixed `#[token]`
literals and the literal regexes beat the permissive identifier regex, and the
`VerticalSpace` pattern carries an explicit `priority = 2` override above the
identifier pattern).  This is modelled by an ordered pattern list scanned with
"longest match wins, the earlier pattern wins ties", with the identifier
pattern last. -/

/-- What the scanner does with a match: emit a token of the built kind, or
skip (the two `logos::Skip` callbacks), the vertical one bumping the line
counter and the line-feed offset. -/
inductive LexAction where
  | emit (mk : List Char → TokenKind)
  | skipVertical
  | skipHorizontal

/-- One scanner pattern: its longest-match length and its action. -/
structure LexPattern where
  matchLen : List Char → Option Nat
  action : LexAction

/-- A `#[token("...")]` pattern. -/
def litPattern (s : String) (k : TokenKind) : LexPattern :=
  ⟨litMatch s.data, .emit fun _ => k⟩

/-- Every fixed `#[token]` literal of `TokenKind`, in source order:
single-character punctuation, double-character punctuation, keywords, and the
placeholder-name keyword `_`. -/
def fixedTokens : List (String × TokenKind) :=
  [("!", .PunctuationExclamationMark),
   ("#", .PunctuationNumberSign),
   ("$", .PunctuationDollarSign),
   ("%", .PunctuationPercentSign),
   ("&", .PunctuationAmpersand),
   ("*", .PunctuationAsterisk),
   ("+", .PunctuationPlusSign),
   (",", .PunctuationComma),
   ("-", .PunctuationHyphenMinus),
   (".", .PunctuationFullStop),
   ("/", .PunctuationSolidus),
   (":", .PunctuationColon),
   (";", .PunctuationSemicolon),
   ("<", .PunctuationLessThanSign),
   ("=", .PunctuationEqualsSign),
   (">", .PunctuationGreaterThanSign),
   ("?", .PunctuationQuestionMark),
   ("@", .PunctuationCommercialAt),
   ("\\", .PunctuationReverseSolidus),
   ("^", .PunctuationCircumflexAccent),
   ("|", .PunctuationVerticalLine),
   ("~", .PunctuationTilde),
   ("(", .PunctuationLeftParenthesis),
   ("[", .PunctuationLeftSquareBracket),
   ("\x7b", .PunctuationLeftCurlyBracket),
   (")", .PunctuationRightParenthesis),
   ("]", .PunctuationRightSquareBracket),
   ("\x7d", .PunctuationRightCurlyBracket),
   ("&&", .PunctuationsLogicalAnd),
   ("||", .PunctuationsLogicalOr),
   ("==", .PunctuationsEqualTo),
   ("!=", .PunctuationsNotEqualTo),
   ("<=", .PunctuationsLessThanOrEqualTo),
   (">=", .PunctuationsGreaterThanOrEqualTo),
   ("->", .PunctuationsSingleRightArrow),
   ("..", .PunctuationsRangeRightExclusive),
   ("..=", .PunctuationsRangeRightInclusive),
   ("?.", .PunctuationsGetFieldNullable),
   ("as", .KeywordAs),
   ("break", .KeywordBreak),
   ("continue", .KeywordContinue),
   ("else", .KeywordElse),
   ("extern", .KeywordExtern),
   ("fn", .KeywordFn),
   ("for", .KeywordFor),
   ("if", .KeywordIf),
   ("impl", .KeywordImpl),
   ("in", .KeywordIn),
   ("let", .KeywordLet),
   ("match", .KeywordMatch),
   ("pub", .KeywordPub),
   ("return", .KeywordReturn),
   ("self", .KeywordSelf),
   ("Self", .KeywordSelfType),
   ("struct", .KeywordStruct),
   ("trait", .KeywordTrait),
   ("type", .KeywordType),
   ("union", .KeywordUnion),
   ("use", .KeywordUse),
   ("where", .KeywordWhere),
   ("while", .KeywordWhile),
   ("_", .KeywordPlaceholderName)]

def fixedPatterns : List LexPattern :=
  fixedTokens.map fun p => litPattern p.1 p.2

/-- The literal regexes, emitting their slice in the payload. -/
def regexEmitPatterns : List LexPattern :=
  [⟨booleanMatch, .emit fun s => .LiteralBoolean (String.mk s)⟩,
   ⟨charLitMatch, .emit fun s => .LiteralCharacter (String.mk s)⟩,
   ⟨strLitMatch, .emit fun s => .LiteralString (String.mk s)⟩,
   ⟨integralMatch, .emit fun s => .LiteralNumberIntegral (String.mk s)⟩,
   ⟨decimalMatch, .emit fun s => .LiteralNumberDecimal (String.mk s)⟩,
   ⟨exponentMatch, .emit fun s => .LiteralNumberExponent (String.mk s)⟩]

/-- The full pattern table, in tie-break priority order; the permissive
identifier regex comes last. -/
def lexPatterns : List LexPattern :=
  fixedPatterns ++ regexEmitPatterns ++
  [⟨verticalSpaceMatch, .skipVertical⟩,
   ⟨horizontalSpacesMatch, .skipHorizontal⟩,
   ⟨identMatch, .emit fun s => .IdentifierIdentifier (String.mk s)⟩]

/-- Fold step selecting the longest match (strictly longer replaces; ties keep
the earlier pattern). -/
def lexStep (cs : List Char) (acc : Option (Nat × LexAction)) (p : LexPattern) :
    Option (Nat × LexAction) :=
  match p.matchLen cs with
  | some n =>
    match acc with
    | some (m, a) => if m < n then some (n, p.action) else some (m, a)
    | none => some (n, p.action)
  | none => acc

/-- The winning pattern at the start of `cs`. -/
def bestMatch (cs : List Char) : Option (Nat × LexAction) :=
  lexPatterns.foldl (lexStep cs) none

/-- A step of the scanner, made observable: an emitted token, a skipped line
break (with its byte range), or a skipped whitespace run. -/
inductive LexEvent where
  | token (t : Token)
  | lineBreak (first stop : Nat)
  | hspace (first stop : Nat)

/-- The UTF-8 byte length of a character list (spans are byte offsets). -/
def utf8Len (cs : List Char) : Nat := cs.foldl (fun a c => a + c.utf8Size) 0

/-- The scanner loop (`RanoLexer::next` plus the two skip callbacks),
threading the position, the line counter, and the byte offset just past the
most recent line break (`TokenExtras`).  Fuel is the number of characters
left; every step consumes at least one character, so the initial fuel
suffices.  On a match the token's span is
`{range: pos..stop, line, column: stop − last_linefeed, len: stop − pos}`;
a vertical-space match increments `line` and sets `last_linefeed := stop`.
The `none` branch models the `#[error]` fallback: an `Error` token and the
scan continues (with this pattern table some pattern matches at every
character, so the branch is unreachable). -/
def lexAux : Nat → Nat → Nat → Nat → List Char → List LexEvent
  | 0, _, _, _, _ => []
  | _ + 1, _, _, _, [] => []
  | fuel + 1, pos, line, lastLinefeed, c :: cs =>
    match bestMatch (c :: cs) with
    | some (n, act) =>
      let slice := (c :: cs).take n
      let stop := pos + utf8Len slice
      match act with
      | .skipVertical =>
        .lineBreak pos stop :: lexAux fuel stop (line + 1) stop ((c :: cs).drop n)
      | .skipHorizontal =>
        .hspace pos stop :: lexAux fuel stop line lastLinefeed ((c :: cs).drop n)
      | .emit mk =>
        .token { kind := mk slice,
                 span := { range := ⟨pos, stop⟩, line := line,
                           column := stop - lastLinefeed, len := stop - pos },
                 content := String.mk slice }
          :: lexAux fuel stop line lastLinefeed ((c :: cs).drop n)
    | none =>
      .token { kind := .Error,
               span := { range := ⟨pos, pos + c.utf8Size⟩, line := line,
                         column := pos + c.utf8Size - lastLinefeed,
                         len := c.utf8Size },
               content := String.mk [c] }
        :: lexAux fuel (pos + c.utf8Size) line lastLinefeed cs

/-- The observable scan of a source text. -/
def lexTrace (src : String) : List LexEvent :=
  lexAux src.data.length 0 0 0 src.data

/-- The tokens among a list of scan events. -/
def tokensOf (evs : List LexEvent) : List Token :=
  evs.filterMap fun e => match e with | .token t => some t | _ => none

/-- `tokenize`: the emitted token sequence of a source text. -/
def tokenize (src : String) : List Token := tokensOf (lexTrace src)

/-! ## Scanner lemmas: pattern guards -/

theorem lexStep_none {cs : List Char} {p : LexPattern}
    (h : p.matchLen cs = none) (acc : Option (Nat × LexAction)) :
    lexStep cs acc p = acc := by
  simp [lexStep, h]

theorem foldl_lexStep_none {cs : List Char} :
    ∀ (ps : List LexPattern), (∀ p ∈ ps, p.matchLen cs = none) →
      ∀ acc, ps.foldl (lexStep cs) acc = acc
  | [], _, _ => rfl
  | p :: ps, h, acc => by
    rw [List.foldl_cons, lexStep_none (h p (by simp)) acc]
    exact foldl_lexStep_none ps (fun q hq => h q (by simp [hq])) acc

theorem litMatch_some {pat cs : List Char} {n : Nat}
    (h : litMatch pat cs = some n) : n = pat.length := by
  unfold litMatch at h
  split at h
  · exact (Option.some.injEq ..).mp h.symm
  · exact absurd h (by simp)

theorem litMatch_cons_none {a c : Char} {t cs : List Char} (h : a ≠ c) :
    litMatch (a :: t) (c :: cs) = none := by
  simp [litMatch, List.isPrefixOf, h]

/-- The first character of a fixed token's text, required non-whitespace. -/
def headNonWs (s : String) : Bool :=
  match s.data with
  | [] => false
  | a :: _ => !(isWsChar a)

theorem fixedTokens_heads :
    fixedTokens.all (fun pr => headNonWs pr.1) = true := by decide

theorem litMatch_ws_none {s : String} {c : Char} {cs : List Char}
    (hs : headNonWs s = true) (hc : isWsChar c = true) :
    litMatch s.data (c :: cs) = none := by
  rcases hd : s.data with _ | ⟨a, t⟩
  · simp [headNonWs, hd] at hs
  · have ha : isWsChar a = false := by
      unfold headNonWs at hs
      rw [hd] at hs
      simpa using hs
    refine litMatch_cons_none fun hac => ?_
    rw [hac, hc] at ha
    exact absurd ha (by simp)

theorem wsChar_not {c : Char} (h : isWsChar c = true) :
    isDigit09 c = false ∧ c ≠ 't' ∧ c ≠ 'f' ∧ c ≠ '\'' ∧ c ≠ '"' ∧
      identFirstOk c = false := by
  simp only [isWsChar, isVerticalSpace, isHorizontalSpace, Bool.or_eq_true,
    decide_eq_true_eq] at h
  rcases h with h | h
  · fin_cases h <;> decide
  · fin_cases h <;> decide

theorem vertical_not_horizontal {c : Char} (h : isVerticalSpace c = true) :
    isHorizontalSpace c = false := by
  simp only [isVerticalSpace, decide_eq_true_eq] at h
  fin_cases h <;> decide

theorem horizontal_not_vertical {c : Char} (h : isHorizontalSpace c = true) :
    c ≠ '\u000D' ∧ isVerticalSpace c = false := by
  simp only [isHorizontalSpace, decide_eq_true_eq] at h
  fin_cases h <;> decide

theorem booleanMatch_cons_none {c : Char} {cs : List Char}
    (ht : c ≠ 't') (hf : c ≠ 'f') : booleanMatch (c :: cs) = none := by
  unfold booleanMatch
  rw [litMatch_cons_none (Ne.symm ht), litMatch_cons_none (Ne.symm hf)]

theorem charLitMatch_cons_none {c : Char} {cs : List Char}
    (h : c ≠ '\'') : charLitMatch (c :: cs) = none := by
  simp [charLitMatch, h]

theorem strLitMatch_cons_none {c : Char} {cs : List Char}
    (h : c ≠ '"') : strLitMatch (c :: cs) = none := by
  simp [strLitMatch, h]

theorem integralMatch_cons_none {c : Char} {cs : List Char}
    (h : isDigit09 c = false) : integralMatch (c :: cs) = none := by
  simp [integralMatch, h]

theorem decimalMatch_cons_none {c : Char} {cs : List Char}
    (h : isDigit09 c = false) : decimalMatch (c :: cs) = none := by
  simp [decimalMatch, h]

theorem exponentMatch_cons_none {c : Char} {cs : List Char}
    (h : isDigit09 c = false) : exponentMatch (c :: cs) = none := by
  simp [exponentMatch, h]

theorem identMatch_cons_none {c : Char} {cs : List Char}
    (h : identFirstOk c = false) : identMatch (c :: cs) = none := by
  simp [identMatch, h]

theorem fixed_ws_none {c : Char} {cs : List Char} (hc : isWsChar c = true) :
    ∀ p ∈ fixedPatterns, p.matchLen (c :: cs) = none := by
  intro p hp
  rcases List.mem_map.mp hp with ⟨pr, hpr, rfl⟩
  have hh : headNonWs pr.1 = true :=
    List.all_eq_true.mp fixedTokens_heads pr hpr
  exact litMatch_ws_none hh hc

theorem regexEmit_ws_none {c : Char} {cs : List Char} (hc : isWsChar c = true) :
    ∀ p ∈ regexEmitPatterns, p.matchLen (c :: cs) = none := by
  obtain ⟨hd, ht, hf, hq, hdq, _⟩ := wsChar_not hc
  intro p hp
  simp only [regexEmitPatterns, List.mem_cons, List.not_mem_nil, or_false] at hp
  rcases hp with rfl | rfl | rfl | rfl | rfl | rfl
  · exact booleanMatch_cons_none ht hf
  · exact charLitMatch_cons_none hq
  · exact strLitMatch_cons_none hdq
  · exact integralMatch_cons_none hd
  · exact decimalMatch_cons_none hd
  · exact exponentMatch_cons_none hd

/-! ## Scanner lemmas: every pattern match consumes at least one character -/

theorem headNonWs_ne_nil {s : String} (h : headNonWs s = true) : s.data ≠ [] := by
  intro hnil
  unfold headNonWs at h
  rw [hnil] at h
  exact absurd h (by simp)

theorem foldl_accept_inv {accept : List Char → Bool} {cs : List Char} :
    ∀ (l : List Nat) (acc : Option Nat),
      (∀ k, acc = some k → accept (cs.take k) = true) →
      ∀ n, l.foldl (fun a m => if accept (cs.take m) then some m else a) acc
        = some n → accept (cs.take n) = true
  | [], _, hacc, n, h => hacc n h
  | m :: l, acc, hacc, n, h => by
    rw [List.foldl_cons] at h
    refine foldl_accept_inv l _ ?_ n h
    intro k hk
    by_cases hm : accept (cs.take m) = true
    · rw [if_pos hm] at hk
      injection hk with hk
      rw [← hk]
      exact hm
    · rw [if_neg hm] at hk
      exact hacc k hk

theorem bestAcceptLen_accept {accept : List Char → Bool} {cs : List Char}
    {n : Nat} (h : bestAcceptLen accept cs = some n) :
    accept (cs.take n) = true :=
  foldl_accept_inv _ none (fun k hk => absurd hk (by simp)) n h

theorem bestAcceptLen_pos {accept : List Char → Bool} {cs : List Char}
    {n : Nat} (h : bestAcceptLen accept cs = some n)
    (h0 : accept [] = false) : 1 ≤ n := by
  have ha := bestAcceptLen_accept h
  rcases n with _ | n
  · rw [List.take_zero, h0] at ha
    exact absurd ha (by simp)
  · omega

theorem booleanMatch_pos {cs : List Char} {n : Nat}
    (h : booleanMatch cs = some n) : 1 ≤ n := by
  unfold booleanMatch at h
  split at h
  · rename_i m hm
    injection h with h
    rw [← h, litMatch_some hm]
    decide
  · rw [litMatch_some h]
    decide

theorem charLitMatch_pos {cs : List Char} {n : Nat}
    (h : charLitMatch cs = some n) : 1 ≤ n := by
  rcases cs with _ | ⟨c, cs⟩
  · simp [charLitMatch] at h
  · simp only [charLitMatch] at h
    split at h
    · exact bestAcceptLen_pos h rfl
    · simp at h

theorem strLitMatch_pos {cs : List Char} {n : Nat}
    (h : strLitMatch cs = some n) : 1 ≤ n := by
  rcases cs with _ | ⟨c, cs⟩
  · simp [strLitMatch] at h
  · simp only [strLitMatch] at h
    split at h
    · exact bestAcceptLen_pos h rfl
    · simp at h

theorem integralMatch_pos {cs : List Char} {n : Nat}
    (h : integralMatch cs = some n) : 1 ≤ n := by
  rcases cs with _ | ⟨c, cs⟩
  · simp [integralMatch] at h
  · simp only [integralMatch] at h
    split at h
    · split at h <;> (injection h with h; omega)
    · simp at h

theorem decimalMatch_pos {cs : List Char} {n : Nat}
    (h : decimalMatch cs = some n) : 1 ≤ n := by
  rcases cs with _ | ⟨c, cs⟩
  · simp [decimalMatch] at h
  · simp only [decimalMatch] at h
    split at h
    · split at h
      · split at h
        · injection h with h; omega
        · simp at h
      · simp at h
    · simp at h

theorem exponentMatch_pos {cs : List Char} {n : Nat}
    (h : exponentMatch cs = some n) : 1 ≤ n := by
  rcases cs with _ | ⟨c, cs⟩
  · simp [exponentMatch] at h
  · simp only [exponentMatch] at h
    split at h
    · split at h
      · injection h with h; omega
      · split at h
        · injection h with h; omega
        · simp at h
    · simp at h

theorem verticalSpaceMatch_pos {cs : List Char} {n : Nat}
    (h : verticalSpaceMatch cs = some n) : 1 ≤ n := by
  rcases cs with _ | ⟨c, cs⟩
  · simp [verticalSpaceMatch] at h
  · simp only [verticalSpaceMatch] at h
    split at h
    · split at h <;> (injection h with h; omega)
    · split at h
      · injection h with h; omega
      · simp at h

theorem horizontalSpacesMatch_pos {cs : List Char} {n : Nat}
    (h : horizontalSpacesMatch cs = some n) : 1 ≤ n := by
  rcases cs with _ | ⟨c, cs⟩
  · simp [horizontalSpacesMatch] at h
  · simp only [horizontalSpacesMatch] at h
    split at h
    · injection h with h; omega
    · simp at h

theorem identMatch_pos {cs : List Char} {n : Nat}
    (h : identMatch cs = some n) : 1 ≤ n := by
  rcases cs with _ | ⟨c, cs⟩
  · simp [identMatch] at h
  · simp only [identMatch] at h
    split at h
    · injection h with h; omega
    · simp at h

theorem lexPatterns_pos :
    ∀ p ∈ lexPatterns, ∀ cs n, p.matchLen cs = some n → 1 ≤ n := by
  intro p hp cs n h
  simp only [lexPatterns, List.mem_append, List.mem_cons, List.not_mem_nil,
    or_false] at hp
  rcases hp with (hp | hp) | hp | hp | hp
  · rcases List.mem_map.mp hp with ⟨pr, hpr, rfl⟩
    have hh := List.all_eq_true.mp fixedTokens_heads pr hpr
    have hne := headNonWs_ne_nil hh
    have := litMatch_some h
    rcases hd : pr.1.data with _ | ⟨a, t⟩
    · exact absurd hd hne
    · rw [hd] at this
      simp [this]
  · simp only [regexEmitPatterns, List.mem_cons, List.not_mem_nil, or_false] at hp
    rcases hp with rfl | rfl | rfl | rfl | rfl | rfl
    · exact booleanMatch_pos h
    · exact charLitMatch_pos h
    · exact strLitMatch_pos h
    · exact integralMatch_pos h
    · exact decimalMatch_pos h
    · exact exponentMatch_pos h
  · rw [hp] at h
    exact verticalSpaceMatch_pos h
  · rw [hp] at h
    exact horizontalSpacesMatch_pos h
  · rw [hp] at h
    exact identMatch_pos h

theorem foldl_lexStep_pos {cs : List Char} :
    ∀ (ps : List LexPattern) (acc : Option (Nat × LexAction)),
      (∀ p ∈ ps, ∀ m, p.matchLen cs = some m → 1 ≤ m) →
      (∀ m a, acc = some (m, a) → 1 ≤ m) →
      ∀ n act, ps.foldl (lexStep cs) acc = some (n, act) → 1 ≤ n
  | [], _, _, hacc, n, act, h => hacc n act h
  | p :: ps, acc, hps, hacc, n, act, h => by
    rw [List.foldl_cons] at h
    refine foldl_lexStep_pos ps _ (fun q hq => hps q (by simp [hq])) ?_ n act h
    intro m a hm
    unfold lexStep at hm
    split at hm
    · rename_i k hk
      split at hm
      · rename_i m' a'
        split at hm
        · injection hm with hm
          injection hm with hm1 hm2
          rw [← hm1]
          exact hps p (by simp) k hk
        · exact hacc m a hm
      · injection hm with hm
        injection hm with hm1 hm2
        rw [← hm1]
        exact hps p (by simp) k hk
    · exact hacc m a hm

theorem bestMatch_pos {cs : List Char} {n : Nat} {act : LexAction}
    (h : bestMatch cs = some (n, act)) : 1 ≤ n :=
  foldl_lexStep_pos lexPatterns none (fun p hp => lexPatterns_pos p hp cs)
    (fun m a hm => absurd hm (by simp)) n act h

/-! ## Whitespace input is always skipped (claim C7) -/

theorem horizontalSpacesMatch_cons_none {c : Char} {cs : List Char}
    (h : isHorizontalSpace c = false) :
    horizontalSpacesMatch (c :: cs) = none := by
  simp [horizontalSpacesMatch, h]

theorem verticalSpaceMatch_cons_none {c : Char} {cs : List Char}
    (hr : c ≠ '\u000D') (hv : isVerticalSpace c = false) :
    verticalSpaceMatch (c :: cs) = none := by
  simp [verticalSpaceMatch, hr, hv]

theorem verticalSpaceMatch_ws_some {c : Char} {cs : List Char}
    (hv : isVerticalSpace c = true) :
    ∃ n, verticalSpaceMatch (c :: cs) = some n ∧ 1 ≤ n := by
  simp only [verticalSpaceMatch]
  by_cases hr : c = '\u000D'
  · rw [if_pos hr]
    rcases cs with _ | ⟨d, cs⟩
    · exact ⟨1, rfl, by omega⟩
    · by_cases hd : d = '\n'
      · subst hd; exact ⟨2, rfl, by omega⟩
      · refine ⟨1, ?_, by omega⟩
        split
        · rename_i tail heq
          injection heq with h1 _
          exact absurd h1 hd
        · rfl
  · rw [if_neg hr, if_pos hv]
    exact ⟨1, rfl, by omega⟩

theorem bestMatch_ws {c : Char} {cs : List Char} (hc : isWsChar c = true) :
    ∃ n, 1 ≤ n ∧
      (bestMatch (c :: cs) = some (n, LexAction.skipVertical) ∨
       bestMatch (c :: cs) = some (n, LexAction.skipHorizontal)) := by
  have hfix := @fixed_ws_none c cs hc
  have hreg := @regexEmit_ws_none c cs hc
  have hident : identMatch (c :: cs) = none :=
    identMatch_cons_none (wsChar_not hc).2.2.2.2.2
  unfold bestMatch lexPatterns
  rw [List.foldl_append, List.foldl_append,
    foldl_lexStep_none _ hfix none, foldl_lexStep_none _ hreg none,
    List.foldl_cons, List.foldl_cons, List.foldl_cons, List.foldl_nil]
  by_cases hv : isVerticalSpace c = true
  · obtain ⟨n, hvm, hn⟩ := @verticalSpaceMatch_ws_some c cs hv
    have hh : isHorizontalSpace c = false := vertical_not_horizontal hv
    refine ⟨n, hn, Or.inl ?_⟩
    simp [lexStep, hvm, horizontalSpacesMatch_cons_none hh, hident]
  · have hh : isHorizontalSpace c = true := by
      simp only [isWsChar, Bool.or_eq_true] at hc
      rcases hc with hc | hc
      · exact absurd hc hv
      · exact hc
    obtain ⟨hr, hv'⟩ := horizontal_not_vertical hh
    refine ⟨1 + takeWhileCount isHorizontalSpace cs, by omega, Or.inr ?_⟩
    simp [lexStep, verticalSpaceMatch_cons_none hr hv', hident,
      horizontalSpacesMatch, hh]

theorem lexAux_ws_tokens :
    ∀ (fuel : Nat) (cs : List Char) (pos line llf : Nat),
      (∀ c ∈ cs, isWsChar c = true) →
      tokensOf (lexAux fuel pos line llf cs) = []
  | 0, _, _, _, _, _ => rfl
  | _ + 1, [], _, _, _, _ => rfl
  | fuel + 1, c :: cs, pos, line, llf, h => by
    obtain ⟨n, _, hbm⟩ := @bestMatch_ws c cs (h c (by simp))
    have hrest : ∀ d ∈ (c :: cs).drop n, isWsChar d = true :=
      fun d hd => h d (List.drop_subset n (c :: cs) hd)
    rcases hbm with hbm | hbm <;>
      simp only [lexAux, hbm, tokensOf, List.filterMap_cons] <;>
      exact lexAux_ws_tokens fuel _ _ _ _ hrest

/-- C7: a source text consisting solely of whitespace and line-break
characters (the scanner's two skip classes) tokenizes to the empty token
sequence — whitespace and line-break runs never contribute a token. -/
theorem tokenize_whitespace_empty (src : String)
    (h : ∀ c ∈ src.data, isWsChar c = true) : tokenize src = [] :=
  lexAux_ws_tokens src.data.length src.data 0 0 0 h

/-- C7 (witness): a concrete text of spaces, a tab, line breaks and a
no-break space tokenizes to nothing. -/
theorem tokenize_whitespace_empty_witness :
    tokenize " \t\u000A\u000D   " = [] :=
  tokenize_whitespace_empty " \t\u000A\u000D   " (by decide)

/-! ## Byte lengths -/

theorem foldl_add_utf8 :
    ∀ (cs : List Char) (a : Nat),
      cs.foldl (fun x c => x + c.utf8Size) a = a + utf8Len cs
  | [], a => by simp [utf8Len]
  | c :: cs, a => by
    simp only [utf8Len, List.foldl_cons]
    rw [foldl_add_utf8 cs (a + c.utf8Size), foldl_add_utf8 cs (0 + c.utf8Size)]
    omega

theorem utf8Len_cons (c : Char) (cs : List Char) :
    utf8Len (c :: cs) = c.utf8Size + utf8Len cs := by
  have h := foldl_add_utf8 cs (0 + c.utf8Size)
  simp only [utf8Len, List.foldl_cons] at h ⊢
  omega

theorem utf8Len_append (xs ys : List Char) :
    utf8Len (xs ++ ys) = utf8Len xs + utf8Len ys := by
  have h := foldl_add_utf8 ys (xs.foldl (fun x c => x + c.utf8Size) 0)
  simp only [utf8Len, List.foldl_append] at h ⊢
  omega

theorem utf8Len_pos : ∀ {cs : List Char}, cs ≠ [] → 1 ≤ utf8Len cs
  | [], h => absurd rfl h
  | c :: cs, _ => by
    rw [utf8Len_cons]
    have := c.utf8Size_pos
    omega

theorem utf8Len_take_drop (n : Nat) (cs : List Char) :
    utf8Len (cs.take n) + utf8Len (cs.drop n) = utf8Len cs := by
  rw [← utf8Len_append, List.take_append_drop]

/-! ## The scan is total and contiguous (claims C8 and C9) -/

/-- The start offset of a scan event. -/
def LexEvent.first : LexEvent → Nat
  | .token t => t.span.range.start
  | .lineBreak a _ => a
  | .hspace a _ => a

/-- The end offset of a scan event. -/
def LexEvent.stop : LexEvent → Nat
  | .token t => t.span.range.stop
  | .lineBreak _ b => b
  | .hspace _ b => b

/-- `covers pos evs stop`: the events `evs` tile the byte interval from `pos`
to `stop` contiguously, each consuming at least one byte. -/
def covers : Nat → List LexEvent → Nat → Prop
  | pos, [], stop => pos = stop
  | pos, e :: rest, stop => e.first = pos ∧ pos < e.stop ∧ covers e.stop rest stop

theorem lexAux_covers :
    ∀ (fuel : Nat) (cs : List Char) (pos line llf : Nat), cs.length ≤ fuel →
      covers pos (lexAux fuel pos line llf cs) (pos + utf8Len cs)
  | 0, cs, pos, _, _, h => by
    have hnil : cs = [] := List.length_eq_zero.mp (Nat.le_zero.mp h)
    subst hnil
    simp [lexAux, covers, utf8Len]
  | _ + 1, [], pos, _, _, _ => by simp [lexAux, covers, utf8Len]
  | fuel + 1, c :: cs, pos, line, llf, h => by
    rcases hbm : bestMatch (c :: cs) with _ | ⟨n, act⟩
    · simp only [lexAux, hbm, covers, LexEvent.first, LexEvent.stop]
      refine ⟨by trivial, by have := c.utf8Size_pos; omega, ?_⟩
      have hrec := lexAux_covers fuel cs (pos + c.utf8Size) line llf
        (by simp only [List.length_cons] at h; omega)
      have he : pos + utf8Len (c :: cs) = pos + c.utf8Size + utf8Len cs := by
        rw [utf8Len_cons]; omega
      rw [he]
      exact hrec
    · have hn := bestMatch_pos hbm
      have htake : 1 ≤ utf8Len ((c :: cs).take n) := by
        refine utf8Len_pos ?_
        rcases n with _ | n
        · omega
        · simp
      have hlen : ((c :: cs).drop n).length ≤ fuel := by
        rw [List.length_drop]
        simp only [List.length_cons] at h ⊢
        omega
      have hsum : pos + utf8Len ((c :: cs).take n) + utf8Len ((c :: cs).drop n)
          = pos + utf8Len (c :: cs) := by
        have := utf8Len_take_drop n (c :: cs)
        omega
      rcases act with mk | _ | _
      · simp only [lexAux, hbm, covers, LexEvent.first, LexEvent.stop]
        refine ⟨by trivial, by omega, ?_⟩
        rw [← hsum]
        exact lexAux_covers fuel _ _ _ _ hlen
      · simp only [lexAux, hbm, covers, LexEvent.first, LexEvent.stop]
        refine ⟨by trivial, by omega, ?_⟩
        rw [← hsum]
        exact lexAux_covers fuel _ _ _ _ hlen
      · simp only [lexAux, hbm, covers, LexEvent.first, LexEvent.stop]
        refine ⟨by trivial, by omega, ?_⟩
        rw [← hsum]
        exact lexAux_covers fuel _ _ _ _ hlen

theorem lexTrace_covers (src : String) :
    covers 0 (lexTrace src) (utf8Len src.data) := by
  have := lexAux_covers src.data.length src.data 0 0 0 le_rfl
  simpa [lexTrace] using this

/-- C9: the scan of any source text is total and never aborts: its trace
tiles the whole input contiguously from byte 0 to the full UTF-8 length, each
step consuming at least one byte — so for every input (recognized or not) the
scanner keeps producing events until the input is exhausted.  (The `#[error]`
fallback is the `none` branch of `lexAux`: an `Error`-kind sentinel token is
emitted and scanning continues; with this pattern table some pattern matches
at every character, so no input ever reaches it.) -/
theorem tokenize_total_covers (src : String) :
    covers 0 (lexTrace src) (utf8Len src.data) :=
  lexTrace_covers src

theorem covers_tokens_start :
    ∀ (evs : List LexEvent) (pos stop : Nat), covers pos evs stop →
      ∀ t ∈ tokensOf evs, pos ≤ t.span.range.start
  | [], _, _, _, t, ht => absurd ht (by simp [tokensOf])
  | e :: rest, pos, stop, h, t, ht => by
    obtain ⟨h1, h2, h3⟩ := h
    rcases e with t0 | ⟨a, b⟩ | ⟨a, b⟩
    · simp only [LexEvent.first, LexEvent.stop] at h1 h2
      simp only [tokensOf, List.filterMap_cons] at ht
      rcases List.mem_cons.mp ht with rfl | hm
      · omega
      · have := covers_tokens_start rest _ _ h3 t hm
        simp only [LexEvent.stop] at this
        omega
    · simp only [LexEvent.first, LexEvent.stop] at h1 h2
      simp only [tokensOf, List.filterMap_cons] at ht
      have := covers_tokens_start rest _ _ h3 t ht
      simp only [LexEvent.stop] at this
      omega
    · simp only [LexEvent.first, LexEvent.stop] at h1 h2
      simp only [tokensOf, List.filterMap_cons] at ht
      have := covers_tokens_start rest _ _ h3 t ht
      simp only [LexEvent.stop] at this
      omega

theorem covers_tokens_chain :
    ∀ (evs : List LexEvent) (pos stop : Nat), covers pos evs stop →
      List.Chain' (fun a b : Token => a.span.range.stop ≤ b.span.range.start)
        (tokensOf evs)
  | [], _, _, _ => by simp [tokensOf]
  | e :: rest, pos, stop, h => by
    obtain ⟨h1, h2, h3⟩ := h
    have ih := covers_tokens_chain rest _ _ h3
    rcases e with t0 | ⟨a, b⟩ | ⟨a, b⟩
    · simp only [tokensOf, List.filterMap_cons]
      refine List.chain'_cons'.mpr ⟨?_, ih⟩
      intro u hu
      have hmem : u ∈ tokensOf rest := List.mem_of_mem_head? hu
      exact covers_tokens_start rest _ _ h3 u hmem
    · simpa only [tokensOf, List.filterMap_cons] using ih
    · simpa only [tokensOf, List.filterMap_cons] using ih

/-- C8: in the token sequence of any source text, every two adjacent tokens
are ordered: the first token's span end offset is at most the second token's
span start offset — tokens never overlap and appear in non-decreasing
source-offset order. -/
theorem tokenize_spans_ordered (src : String) :
    List.Chain' (fun a b : Token => a.span.range.stop ≤ b.span.range.start)
      (tokenize src) :=
  covers_tokens_chain (lexTrace src) 0 (utf8Len src.data)
    (lexTrace_covers src)

/-! ## Column and line bookkeeping (claim C5) -/

/-- `columnsOk line lastBreak evs`: walking the scan trace with the current
line number and the byte offset just past the most recent line-break match
(`0` when there has been none), every emitted token's column is its span's
end offset minus that reference offset and its line is the current line
number; every line-break match increments the line number by exactly `1` and
replaces the reference offset by the break's own end offset; whitespace runs
change nothing. -/
def columnsOk : Nat → Nat → List LexEvent → Prop
  | _, _, [] => True
  | line, lastBreak, .token t :: rest =>
    t.span.column = t.span.range.stop - lastBreak ∧ t.span.line = line ∧
      columnsOk line lastBreak rest
  | line, _, .lineBreak _ stop :: rest => columnsOk (line + 1) stop rest
  | line, lastBreak, .hspace _ _ :: rest => columnsOk line lastBreak rest

theorem lexAux_columnsOk :
    ∀ (fuel : Nat) (cs : List Char) (pos line llf : Nat),
      columnsOk line llf (lexAux fuel pos line llf cs)
  | 0, _, _, _, _ => by simp [lexAux, columnsOk]
  | _ + 1, [], _, _, _ => by simp [lexAux, columnsOk]
  | fuel + 1, c :: cs, pos, line, llf => by
    rcases hbm : bestMatch (c :: cs) with _ | ⟨n, act⟩
    · simp only [lexAux, hbm, columnsOk]
      exact ⟨by trivial, by trivial, lexAux_columnsOk fuel cs _ line llf⟩
    · rcases act with mk | _ | _
      · simp only [lexAux, hbm, columnsOk]
        exact ⟨by trivial, by trivial, lexAux_columnsOk fuel _ _ line llf⟩
      · simp only [lexAux, hbm, columnsOk]
        exact lexAux_columnsOk fuel _ _ (line + 1) _
      · simp only [lexAux, hbm, columnsOk]
        exact lexAux_columnsOk fuel _ _ line llf

/-- C5: over the scan of any source text, starting from line `0` and
reference offset `0`, every emitted token's span column equals the token's
end byte offset minus the byte offset immediately after the most recent
line-break match before it (`0` if none), every line-break match increments
the scanner's line counter by exactly `1`, and sets the reference offset to
that break's end offset (`columnsOk` states exactly this bookkeeping). -/
theorem tokenize_column_spec (src : String) :
    columnsOk 0 0 (lexTrace src) :=
  lexAux_columnsOk src.data.length src.data 0 0 0

/-! ## AST (`core/ast` is not among the given files; shapes are modelled from
the spec and from the walker's dispatch) -/

/-- Token/AST text payloads (plain strings). -/
abbrev Text := String

/-- `Name`: tagged variant `{Ident(text), Placeholder}` (§3 of the spec). -/
inductive Name where
  | Ident (text : Text)
  | Placeholder
  deriving Repr, DecidableEq

/-- Modelled from the spec: the six literal subkinds (character, string,
integer, decimal, exponent, boolean); `core/ast`'s `Literal` is not among
the given files. -/
inductive Literal where
  | Character (text : Text)
  | String (text : Text)
  | NumberIntegral (text : Text)
  | NumberDecimal (text : Text)
  | NumberExponent (text : Text)
  | Boolean (text : Text)
  deriving Repr, DecidableEq

/-- `Expression`: the ten-case tagged variant the walker dispatches on
(`codegen/walker/statement/expression/mod.rs`); the `Operator` and `If`
payloads are not described by the given files and are modelled without
fields, which the walker's `todo!`/delegation structure never inspects in
the claims below. -/
inductive Expression where
  | Match
  | Closure
  | Literal (lit : Rano.Literal)
  | Path
  | Array
  | Tuple (expressions : List Expression)
  | Init
  | Operator
  | Name (name : Rano.Name)
  | If
  deriving Repr

/-- Modelled from the spec: a statement carries an expression (`core/ast`'s
`Statement` is not among the given files; §3 and §4.3 describe statements
wrapping expressions, walked by delegating to the expression walk). -/
inductive Statement where
  | Expression (e : Rano.Expression)
  deriving Repr

/-- `Node`: tagged variant `{Directive, Statement}` (§3,
`codegen/walker/module.rs`). -/
inductive Node where
  | Directive
  | Statement (s : Rano.Statement)
  deriving Repr

/-- `Module`: the node list `walk_module` iterates. -/
structure Module where
  nodes : List Node
  deriving Repr

/-! ## Codegen context and walker (`codegen/walker`) -/

/-- Modelled from the spec: the uniform fault value (§4.3, §6 — a diagnostic
minimally carries a message); `codegen`'s `Error` type is not among the
given files. -/
structure Error where
  message : String
  deriving Repr, DecidableEq

/-- Modelled from the spec: `Context` owns the ordered diagnostics list
(§3 — append-only, insertion order = detection order); the `codegen` module
defining it is not among the given files. -/
structure Context where
  diagnostics : List Error
  deriving Repr, DecidableEq

/-- `Context::add_compilation_error`: append one diagnostic. -/
def Context.add_compilation_error (ctx : Context) (e : Error) : Context :=
  { diagnostics := ctx.diagnostics ++ [e] }

/-- The outcome of walking one construct: `ok` and `err` model the source's
`Result<(), Error>`; `fatal` models a `todo!` panic (the source's
implementation-incomplete branches), which unwinds the pass instead of
returning a `Result`. -/
inductive WalkOutcome where
  | ok
  | err (e : Error)
  | fatal (msg : String)
  deriving Repr, DecidableEq

/-- Modelled from the spec: walking a literal succeeds
(`walker/statement/expression/literal.rs` is not among the given files; §3
lists `Literal` among the expression forms with working handlers). -/
def walkLiteral (ctx : Context) (_lit : Literal) : Context × WalkOutcome :=
  (ctx, .ok)

/-- Modelled from the spec: walking an operator expression succeeds
(`operator.rs` is not among the given files; §3 lists `Operator` among the
working handlers). -/
def walkOperator (ctx : Context) : Context × WalkOutcome :=
  (ctx, .ok)

/-- Modelled from the spec: walking a name succeeds (`name.rs` under the
expression walker is not among the given files; §3 lists `Name` among the
working handlers). -/
def walkName (ctx : Context) (_n : Name) : Context × WalkOutcome :=
  (ctx, .ok)

mutual

/-- `Walker<Expression>::walk`
(`codegen/walker/statement/expression/mod.rs`): dispatch on the expression
kind; the unimplemented forms — `Match`, `Closure`, `Path`, `Array`, `Init`,
`If` — hit `todo!("... is not implemented now")`, modelled as a `fatal`
outcome, while `Literal`, `Tuple`, `Operator` and `Name` delegate to their
handlers. -/
def walkExpression (ctx : Context) : Expression → Context × WalkOutcome
  | .Match => (ctx, .fatal "match is not implemented now")
  | .Closure => (ctx, .fatal "closure is not implemented now")
  | .Literal lit => walkLiteral ctx lit
  | .Path => (ctx, .fatal "path is not implemented now")
  | .Array => (ctx, .fatal "array is not implemented now")
  | .Tuple expressions => walkExpressionList ctx expressions
  | .Init => (ctx, .fatal "struct/union init is not implemented now")
  | .Operator => walkOperator ctx
  | .Name n => walkName ctx n
  | .If => (ctx, .fatal "if is not implemented now")

/-- Modelled from the spec: walking a tuple's children
(`walker/statement/expression/tuple.rs` is not among the given files) —
compound-expression fail-fast (§4.3): children left to right, stopping at
the first non-`ok` outcome and propagating it. -/
def walkExpressionList (ctx : Context) : List Expression → Context × WalkOutcome
  | [] => (ctx, .ok)
  | e :: rest =>
    match walkExpression ctx e with
    | (ctx', .ok) => walkExpressionList ctx' rest
    | other => other

end

/-- Modelled from the spec: `walk_statement` (`codegen/walker/statement`, not
among the given files): a statement wraps an expression and walking it
delegates to the expression walk. -/
def walkStatement (ctx : Context) : Statement → Context × WalkOutcome
  | .Expression e => walkExpression ctx e

/-- How a module pass ends: normally, or by a panic (`todo!`) carrying the
context state as of the panic. -/
inductive ModuleOutcome where
  | completed (ctx : Context)
  | panicked (ctx : Context) (msg : String)
  deriving Repr, DecidableEq

def ModuleOutcome.isCompleted : ModuleOutcome → Bool
  | .completed _ => true
  | .panicked _ _ => false

/-- The context as of the pass's return or panic. -/
def ModuleOutcome.context : ModuleOutcome → Context
  | .completed ctx => ctx
  | .panicked ctx _ => ctx

/-- `walk_module` (`codegen/walker/module.rs`) over the remaining node list:
a `Directive` node hits `todo!` (panic); for a `Statement` node,
`walk_statement`'s `Err` is appended to the context via
`add_compilation_error` and iteration continues, `Ok` just continues, and a
`fatal` outcome (a `todo!` inside the statement's walk) unwinds the whole
pass — only `Err` results are caught by the `if let Err(error)` tolerance
path. -/
def walkModuleAux (ctx : Context) : List Node → ModuleOutcome
  | [] => .completed ctx
  | .Directive :: _ => .panicked ctx "directive is not implemented now"
  | .Statement s :: rest =>
    match walkStatement ctx s with
    | (ctx', .ok) => walkModuleAux ctx' rest
    | (ctx', .err e) => walkModuleAux (ctx'.add_compilation_error e) rest
    | (ctx', .fatal msg) => .panicked ctx' msg

/-- `walk_module(context, module)`. -/
def walkModule (ctx : Context) (m : Module) : ModuleOutcome :=
  walkModuleAux ctx m.nodes

/-- The two-statement module of claim C2: first an unimplemented `Match`
expression, then a valid boolean literal expression. -/
def c2Module : Module :=
  ⟨[Node.Statement (Statement.Expression Expression.Match),
    Node.Statement (Statement.Expression (Expression.Literal
      (Literal.Boolean "true")))]⟩

/-- C2 (counterexample): on `c2Module`, `walk_module` starting from an empty
context neither records any diagnostic nor completes the pass: the `Match`
statement's `todo!` panics out of the module loop before the second
statement, so no implementation-incomplete fault is appended to the
context. -/
theorem walk_module_match_no_diagnostic :
    (walkModule ⟨[]⟩ c2Module).isCompleted = false ∧
    (walkModule ⟨[]⟩ c2Module).context.diagnostics = [] := by
  constructor <;>
    simp [walkModule, c2Module, walkModuleAux, walkStatement, walkExpression,
      ModuleOutcome.isCompleted, ModuleOutcome.context]

/-- The `todo!` message of each of the six unimplemented expression forms in
`Walker<Expression>::walk` (`codegen/walker/statement/expression/mod.rs`);
`none` for the four forms with working handlers. -/
def unimplementedMsg : Expression → Option String
  | .Match => some "match is not implemented now"
  | .Closure => some "closure is not implemented now"
  | .Path => some "path is not implemented now"
  | .Array => some "array is not implemented now"
  | .Init => some "struct/union init is not implemented now"
  | .If => some "if is not implemented now"
  | _ => none

mutual

theorem walkExpression_context : ∀ (ctx : Context) (e : Expression),
    (walkExpression ctx e).1 = ctx
  | ctx, .Match => by simp [walkExpression]
  | ctx, .Closure => by simp [walkExpression]
  | ctx, .Literal lit => by simp [walkExpression, walkLiteral]
  | ctx, .Path => by simp [walkExpression]
  | ctx, .Array => by simp [walkExpression]
  | ctx, .Tuple es => by
    have h := walkExpressionList_context ctx es
    simpa [walkExpression] using h
  | ctx, .Init => by simp [walkExpression]
  | ctx, .Operator => by simp [walkExpression, walkOperator]
  | ctx, .Name n => by simp [walkExpression, walkName]
  | ctx, .If => by simp [walkExpression]

theorem walkExpressionList_context : ∀ (ctx : Context) (es : List Expression),
    (walkExpressionList ctx es).1 = ctx
  | ctx, [] => by simp [walkExpressionList]
  | ctx, e :: rest => by
    have h1 := walkExpression_context ctx e
    rcases hwe : walkExpression ctx e with ⟨ctx', o⟩
    rw [hwe] at h1
    rcases o with _ | e' | msg
    · have h2 := walkExpressionList_context ctx' rest
      simp only [walkExpressionList, hwe]
      rw [h2]
      exact h1
    · simp only [walkExpressionList, hwe]
      exact h1
    · simp only [walkExpressionList, hwe]
      exact h1

end

/-- Walking a statement never mutates the modelled context: the leaf
handlers succeed without touching it and the `todo!` branches panic with it
as is. -/
theorem walkStatement_context (ctx : Context) (s : Statement) :
    (walkStatement ctx s).1 = ctx := by
  rcases s with ⟨e⟩
  simpa [walkStatement] using walkExpression_context ctx e

theorem walkExpression_unimplemented (ctx : Context) (e : Expression)
    (msg : String) (h : unimplementedMsg e = some msg) :
    walkExpression ctx e = (ctx, .fatal msg) := by
  rcases e with _ | _ | lit | _ | _ | es | _ | _ | n | _ <;>
    simp only [unimplementedMsg] at h <;>
    first
      | (injection h with h; subst h; simp [walkExpression])
      | exact absurd h (by simp)

/-- C2 (amended): `walk_module` does not tolerate implementation-incomplete
faults.  For every context, every one of the six unimplemented expression
forms (`Match`, `Closure`, `Path`, `Array`, `Init`, `If`) and every list of
following nodes, a module whose first statement is that expression panics at
that statement with that form's `todo!` message and the context unchanged —
no diagnostic is appended and the following statements (in particular a
second one) are never processed; and in general, whenever a statement's walk
ends fatally (a `todo!` reached anywhere inside it, e.g. nested in a tuple),
the module pass panics there with the context unchanged instead of taking
the `Err`-only tolerance path. -/
theorem walkModule_unimplemented_panics :
    (∀ (ctx : Context) (e : Expression) (msg : String) (rest : List Node),
      unimplementedMsg e = some msg →
      walkModule ctx ⟨Node.Statement (Statement.Expression e) :: rest⟩ =
        ModuleOutcome.panicked ctx msg) ∧
    (∀ (ctx ctx' : Context) (s : Statement) (msg : String) (rest : List Node),
      walkStatement ctx s = (ctx', WalkOutcome.fatal msg) →
      ctx' = ctx ∧
      walkModuleAux ctx (Node.Statement s :: rest) =
        ModuleOutcome.panicked ctx msg) := by
  have hgen : ∀ (ctx ctx' : Context) (s : Statement) (msg : String)
      (rest : List Node),
      walkStatement ctx s = (ctx', WalkOutcome.fatal msg) →
      ctx' = ctx ∧
      walkModuleAux ctx (Node.Statement s :: rest) =
        ModuleOutcome.panicked ctx msg := by
    intro ctx ctx' s msg rest hws
    have hc := walkStatement_context ctx s
    rw [hws] at hc
    subst hc
    refine ⟨rfl, ?_⟩
    simp [walkModuleAux, hws]
  refine ⟨?_, hgen⟩
  intro ctx e msg rest h
  have hwe := walkExpression_unimplemented ctx e msg h
  have hws : walkStatement ctx (Statement.Expression e) = (ctx, .fatal msg) := by
    simp [walkStatement, hwe]
  exact (hgen ctx ctx (Statement.Expression e) msg rest hws).2

/-! ## Parser (`syntax/parse`); the combinator module `parse/nom.rs` and the
statement grammar are not among the given files and are modelled from the
spec (§4.2) -/

/-- Modelled from the spec: the backtrackable cursor over the materialized
token sequence, as the remaining suffix. -/
abbrev ParseInput := List Token

/-- Modelled from the spec: a rule's result — the advanced cursor with the
parsed value, or a non-fatal no-match. -/
abbrev ParseResult (α : Type) := Option (ParseInput × α)

/-- A structured parse fault of the top-level entry point: the tokens left
unconsumed at failure. -/
structure ParseError where
  remaining : List Token
  deriving Repr

/-- The entry point's result type (`ParseResultStd`). -/
abbrev ParseResultStd (α : Type) := Except ParseError α

/-- Modelled from the spec: `tag` matches exactly one token of the given
kind (`parse/nom.rs`, used by `parse_name_placeholder`). -/
def tag (kind : TokenKind) (i : ParseInput) : ParseResult Token :=
  match i with
  | t :: rest => if t.kind == kind then some (rest, t) else none
  | [] => none

/-- Modelled from the spec: `map` transforms a successful match's value
without affecting success or failure (§4.2, combinator 4). -/
def map {α β : Type} (p : ParseInput → ParseResult α) (f : α → β)
    (i : ParseInput) : ParseResult β :=
  match p i with
  | some (rest, a) => some (rest, f a)
  | none => none

/-- Modelled from the spec: ordered alternation of two rules, trying them
strictly left to right and committing to the first success (§4.2,
combinator 2). -/
def alt {α : Type} (p q : ParseInput → ParseResult α) (i : ParseInput) :
    ParseResult α :=
  match p i with
  | some r => some r
  | none => q i

/-- Modelled from the spec: `parse_identifier` (`parse/fragment`, not among
the given files) matches one identifier token and yields its text. -/
def parse_identifier (i : ParseInput) : ParseResult Text :=
  match i with
  | ⟨TokenKind.IdentifierIdentifier text, _, _⟩ :: rest => some (rest, text)
  | _ => none

/-- `parse_name_ident` (`syntax/parse/fragment/name.rs`):
`map(parse_identifier, Name::Ident)`. -/
def parse_name_ident (i : ParseInput) : ParseResult Name :=
  map parse_identifier Name.Ident i

/-- `parse_name_placeholder` (`name.rs`):
`map(tag(TokenKind::KeywordPlaceholderName), |_| Name::Placeholder)`. -/
def parse_name_placeholder (i : ParseInput) : ParseResult Name :=
  map (tag TokenKind.KeywordPlaceholderName) (fun _ => Name.Placeholder) i

/-- `parse_name` (`name.rs`): the ordered alternation
`alt((parse_name_ident, parse_name_placeholder))` — the identifier
alternative is tried first, then the placeholder alternative. -/
def parse_name (i : ParseInput) : ParseResult Name :=
  alt parse_name_ident parse_name_placeholder i

/-- C6: the name rule looks only at the single next token: applied at a
placeholder-keyword token it succeeds with `Name::Placeholder` (the
identifier alternative fails there, the placeholder alternative matches),
and applied at an identifier token it succeeds with `Name::Ident` carrying
that token's text; in both cases exactly that one token is consumed,
whatever its span, content, or the following tokens. -/
theorem parse_name_spec :
    (∀ (sp : Span) (content : Text) (rest : List Token),
      parse_name (⟨TokenKind.KeywordPlaceholderName, sp, content⟩ :: rest) =
        some (rest, Name.Placeholder)) ∧
    (∀ (text : Text) (sp : Span) (content : Text) (rest : List Token),
      parse_name (⟨TokenKind.IdentifierIdentifier text, sp, content⟩ :: rest) =
        some (rest, Name.Ident text)) := by
  constructor <;> intros <;> rfl

/-- Modelled from the spec: zero-or-more repetition (§4.2, combinator 3) —
apply the rule until it stops matching, collecting the ordered results; a
match that does not advance the cursor ends the loop, and fuel bounded by
the input length makes the recursion structural (a consuming rule can
iterate at most once per token). -/
def many0Aux {α : Type} (p : ParseInput → ParseResult α) :
    Nat → ParseInput → ParseInput × List α
  | 0, i => (i, [])
  | fuel + 1, i =>
    match p i with
    | some (rest, a) =>
      if rest.length < i.length then
        let r := many0Aux p fuel rest
        (r.1, a :: r.2)
      else (i, [])
    | none => (i, [])

/-- Modelled from the spec: `many0` — the repetition rule itself, which
never fails (an immediate no-match yields the empty list). -/
def many0 {α : Type} (p : ParseInput → ParseResult α) (i : ParseInput) :
    ParseResult (List α) :=
  some (many0Aux p i.length i)

/-- Modelled from the spec: `all_consuming` — run the rule, then fail with a
structured parse fault unless the remaining input is empty ("all input
consumed" postcondition of the entry point). -/
def all_consuming {α : Type} (p : ParseInput → ParseResult α)
    (i : ParseInput) : ParseResultStd (ParseInput × α) :=
  match p i with
  | some (rest, a) => if rest.isEmpty then .ok (rest, a) else .error ⟨rest⟩
  | none => .error ⟨i⟩

/-- Modelled from the spec: a single literal-token rule used to instantiate
the statement grammar (`parse/statement` is not among the given files). -/
def parse_literal (i : ParseInput) : ParseResult Literal :=
  match i with
  | ⟨TokenKind.LiteralCharacter text, _, _⟩ :: rest =>
    some (rest, .Character text)
  | ⟨TokenKind.LiteralString text, _, _⟩ :: rest =>
    some (rest, .String text)
  | ⟨TokenKind.LiteralNumberIntegral text, _, _⟩ :: rest =>
    some (rest, .NumberIntegral text)
  | ⟨TokenKind.LiteralNumberDecimal text, _, _⟩ :: rest =>
    some (rest, .NumberDecimal text)
  | ⟨TokenKind.LiteralNumberExponent text, _, _⟩ :: rest =>
    some (rest, .NumberExponent text)
  | ⟨TokenKind.LiteralBoolean text, _, _⟩ :: rest =>
    some (rest, .Boolean text)
  | _ => none

/-- Modelled from the spec: `parse_statement_node` (`parse/statement`, not
among the given files) — one top-level statement node; its grammar is out of
the given sources, so it is modelled as a statement wrapping a literal
expression parsed from one literal token. -/
def parse_statement_node (i : ParseInput) : ParseResult Node :=
  map parse_literal
    (fun lit => Node.Statement (Statement.Expression (Expression.Literal lit)))
    i

/-- The entry point's body generalized over the statement rule:
`all_consuming(many0(rule))`, keeping the parsed nodes. -/
def parseWith {α : Type} (p : ParseInput → ParseResult α)
    (tokens : List Token) : ParseResultStd (List α) :=
  match all_consuming (many0 p) tokens with
  | .ok (_, nodes) => .ok nodes
  | .error e => .error e

/-- `parse` (`syntax/parse/mod.rs`):
`all_consuming(many0(parse_statement_node))` over the token sequence. -/
def parse (tokens : List Token) : ParseResultStd (List Node) :=
  parseWith parse_statement_node tokens

/-- The cursor left over after the entry point's `many0` statement pass. -/
def many0Rest {α : Type} (p : ParseInput → ParseResult α)
    (tokens : List Token) : ParseInput :=
  (many0Aux p tokens.length tokens).1

theorem many0Aux_suffix {α : Type} {p : ParseInput → ParseResult α}
    (hp : ∀ i rest a, p i = some (rest, a) → List.IsSuffix rest i) :
    ∀ (fuel : Nat) (i : ParseInput),
      List.IsSuffix (many0Aux p fuel i).1 i
  | 0, i => List.suffix_refl i
  | fuel + 1, i => by
    unfold many0Aux
    split
    · rename_i rest a hpi
      split
      · exact List.IsSuffix.trans (many0Aux_suffix hp fuel rest) (hp i rest a hpi)
      · exact List.suffix_refl i
    · exact List.suffix_refl i

theorem parse_statement_node_suffix :
    ∀ (i rest : ParseInput) (a : Node),
      parse_statement_node i = some (rest, a) → List.IsSuffix rest i := by
  intro i rest a h
  unfold parse_statement_node map at h
  split at h
  · rename_i rest' lit hlit
    injection h with h
    injection h with h1 _
    subst h1
    unfold parse_literal at hlit
    split at hlit <;>
      first
        | (injection hlit with hlit
           injection hlit with h2 _
           subst h2
           exact List.suffix_cons _ _)
        | simp at hlit
  · simp at h

/-- C3: the top-level parse entry point returns a parse fault exactly when,
after the full `many0` statement pass, unconsumed tokens remain (the fault
carries them); when it succeeds all input tokens have been consumed; and the
leftover cursor is always a suffix of the input, so the pass consumed a
prefix and stopped where the statement rule first failed to advance. -/
theorem parse_err_iff_unconsumed (tokens : List Token) :
    ((∃ e, parse tokens = .error e) ↔
      many0Rest parse_statement_node tokens ≠ []) ∧
    (∀ nodes, parse tokens = .ok nodes →
      many0Rest parse_statement_node tokens = []) ∧
    List.IsSuffix (many0Rest parse_statement_node tokens) tokens := by
  rcases hma : many0Aux parse_statement_node tokens.length tokens with ⟨R, L⟩
  have hR : many0Rest parse_statement_node tokens = R := by
    simp [many0Rest, hma]
  have hparse : parse tokens =
      if R.isEmpty then Except.ok L else Except.error ⟨R⟩ := by
    simp only [parse, parseWith, all_consuming, many0, hma]
    by_cases hRe : R.isEmpty <;> simp [hRe]
  refine ⟨?_, ?_,
    many0Aux_suffix parse_statement_node_suffix tokens.length tokens⟩
  · rw [hR]
    rcases R with _ | ⟨t0, R'⟩
    · refine iff_of_false ?_ (by simp)
      rintro ⟨e, he⟩
      rw [hparse] at he
      exact Except.noConfusion he
    · refine iff_of_true ⟨⟨t0 :: R'⟩, ?_⟩ (by simp)
      rw [hparse]
      rfl
  · intro nodes hok
    rw [hparse] at hok
    rw [hR]
    rcases R with _ | ⟨t0, R'⟩
    · rfl
    · simp at hok

end Rano
